import Mathlib

/-
Verification development for the certificate rendering service
(certificate.service.ts): a shallow embedding of the browser pool
(getBrowserInstance / resetBrowserIdleTimeout / onModuleDestroy),
the render session (renderPDFFromHTML), and the HTML preprocessing
performed before rendering, together with theorems about them.
-/

namespace CertSvc

/-!
## String primitives

JavaScript's `String.prototype.includes` and `String.prototype.replace`
with a string pattern (which substitutes only the first occurrence),
embedded on `List Char`.
-/

/-- JS `s.includes(pat)`: `pat` occurs as a contiguous substring of `s`. -/
def containsSub (pat : List Char) : List Char → Bool
  | [] => pat.isEmpty
  | c :: rest => pat.isPrefixOf (c :: rest) || containsSub pat rest

/-- JS `s.replace(pat, repl)` for a string pattern: replace only the first
occurrence of `pat` (leftmost match), or return `s` unchanged if absent. -/
def replaceFirst (pat repl : List Char) : List Char → List Char
  | [] => []
  | c :: rest =>
      if pat.isPrefixOf (c :: rest) then repl ++ (c :: rest).drop pat.length
      else c :: replaceFirst pat repl rest

theorem isPrefixOf_iff_append :
    ∀ (a b : List Char), a.isPrefixOf b = true ↔ ∃ t, b = a ++ t := by
  intro a
  induction a with
  | nil =>
    intro b
    simp [List.isPrefixOf]
  | cons x xs ih =>
    intro b
    cases b with
    | nil =>
      simp [List.isPrefixOf]
    | cons y ys =>
      simp only [List.isPrefixOf, Bool.and_eq_true, beq_iff_eq]
      constructor
      · rintro ⟨hx, hp⟩
        obtain ⟨t, ht⟩ := (ih ys).mp hp
        exact ⟨t, by simp [hx, ht]⟩
      · rintro ⟨t, ht⟩
        injection ht with h1 h2
        exact ⟨h1.symm, (ih ys).mpr ⟨t, h2⟩⟩

theorem containsSub_iff :
    ∀ (pat s : List Char), containsSub pat s = true ↔ ∃ a b, s = a ++ pat ++ b := by
  intro pat s
  induction s with
  | nil =>
    simp only [containsSub, List.isEmpty_iff]
    constructor
    · intro h
      exact ⟨[], [], by simp [h]⟩
    · rintro ⟨a, b, h⟩
      cases a <;> cases pat <;> simp_all
  | cons c r ih =>
    simp only [containsSub, Bool.or_eq_true]
    constructor
    · rintro (h | h)
      · obtain ⟨t, ht⟩ := (isPrefixOf_iff_append _ _).mp h
        exact ⟨[], t, by simp [ht]⟩
      · obtain ⟨a, b, hab⟩ := ih.mp h
        exact ⟨c :: a, b, by simp [hab]⟩
    · rintro ⟨a, b, hab⟩
      cases a with
      | nil =>
        exact Or.inl ((isPrefixOf_iff_append _ _).mpr ⟨b, by simpa using hab⟩)
      | cons a0 a' =>
        injection hab with h1 h2
        exact Or.inr (ih.mpr ⟨a', b, h2⟩)

theorem containsSub_append_left (t a b : List Char) (h : containsSub t a = true) :
    containsSub t (a ++ b) = true := by
  obtain ⟨u, v, huv⟩ := (containsSub_iff t a).mp h
  exact (containsSub_iff t (a ++ b)).mpr ⟨u, v ++ b, by simp [huv]⟩

theorem containsSub_append_right (t a b : List Char) (h : containsSub t b = true) :
    containsSub t (a ++ b) = true := by
  obtain ⟨u, v, huv⟩ := (containsSub_iff t b).mp h
  exact (containsSub_iff t (a ++ b)).mpr ⟨a ++ u, v, by simp [huv]⟩

theorem replaceFirst_of_not_contains (pat repl : List Char) :
    ∀ s, containsSub pat s = false → replaceFirst pat repl s = s := by
  intro s
  induction s with
  | nil => intro _; rfl
  | cons c r ih =>
    intro h
    simp only [containsSub, Bool.or_eq_false_iff] at h
    simp [replaceFirst, h.1, ih h.2]

theorem replaceFirst_spec (pat repl : List Char) (hpat : pat ≠ []) :
    ∀ s : List Char, containsSub pat s = true →
      ∃ a b, s = a ++ pat ++ b ∧ replaceFirst pat repl s = a ++ repl ++ b := by
  intro s
  induction s with
  | nil =>
    intro h
    simp only [containsSub, List.isEmpty_iff] at h
    exact absurd h hpat
  | cons c r ih =>
    intro h
    by_cases hp : pat.isPrefixOf (c :: r) = true
    · obtain ⟨t, ht⟩ := (isPrefixOf_iff_append _ _).mp hp
      refine ⟨[], t, by simpa using ht, ?_⟩
      simp only [replaceFirst, hp, if_true, List.nil_append]
      rw [ht, List.drop_left]
    · simp only [containsSub, Bool.or_eq_true] at h
      rcases h with h | h
      · exact absurd h hp
      · obtain ⟨a, b, hab, hout⟩ := ih h
        refine ⟨c :: a, b, by simp [hab], ?_⟩
        simp [replaceFirst, hp, hout]

/-- A marker substring contained in the replacement text is contained in the
result of a (successful) replacement. -/
theorem containsSub_replaceFirst_of_repl (pat repl t s : List Char) (hpat : pat ≠ [])
    (hs : containsSub pat s = true) (ht : containsSub t repl = true) :
    containsSub t (replaceFirst pat repl s) = true := by
  obtain ⟨a, b, _, hout⟩ := replaceFirst_spec pat repl hpat s hs
  rw [hout, List.append_assoc]
  exact containsSub_append_right t a (repl ++ b) (containsSub_append_left t repl b ht)

/-- Pointwise agreement of two character lists over their common length. -/
def agree : List Char → List Char → Bool
  | [], _ => true
  | _ :: _, [] => true
  | a :: as, b :: bs => a == b && agree as bs

theorem agree_of_append_eq :
    ∀ (u w x y : List Char), u ++ x = w ++ y → agree u w = true := by
  intro u
  induction u with
  | nil => intro w x y _; cases w <;> simp [agree]
  | cons c u' ih =>
    intro w x y h
    cases w with
    | nil => simp [agree]
    | cons d w' =>
      injection h with h1 h2
      simp [agree, h1, ih w' x y h2]

/-- Two patterns that can never overlap in any string: no shifted alignment of
one against the other agrees on the overlapped characters. -/
def conflictFree (t pat : List Char) : Bool :=
  ((List.range t.length).all fun d => !(agree (t.drop d) pat)) &&
  ((List.range pat.length).all fun d => !(agree (pat.drop d) t))

theorem conflictFree_fst {t pat : List Char} (h : conflictFree t pat = true)
    {d : Nat} (hd : d < t.length) : agree (t.drop d) pat = false := by
  have h1 : ((List.range t.length).all fun d => !(agree (t.drop d) pat)) = true := by
    have := h
    simp only [conflictFree, Bool.and_eq_true] at this
    exact this.1
  rw [List.all_eq_true] at h1
  have := h1 d (List.mem_range.mpr hd)
  simpa using this

theorem conflictFree_snd {t pat : List Char} (h : conflictFree t pat = true)
    {d : Nat} (hd : d < pat.length) : agree (pat.drop d) t = false := by
  have h1 : ((List.range pat.length).all fun d => !(agree (pat.drop d) t)) = true := by
    have := h
    simp only [conflictFree, Bool.and_eq_true] at this
    exact this.2
  rw [List.all_eq_true] at h1
  have := h1 d (List.mem_range.mpr hd)
  simpa using this

/-- Occurrences of two conflict-free patterns in the same string never overlap. -/
theorem occurrences_disjoint (t pat a b u v s : List Char)
    (hcf : conflictFree t pat = true)
    (h1 : s = a ++ pat ++ b) (h2 : s = u ++ t ++ v) :
    u.length + t.length ≤ a.length ∨ a.length + pat.length ≤ u.length := by
  by_contra hcon
  push_neg at hcon
  obtain ⟨hlt1, hlt2⟩ := hcon
  have hpa : s.drop a.length = pat ++ b := by
    rw [h1, List.append_assoc, List.drop_left]
  have htu : s.drop u.length = t ++ v := by
    rw [h2, List.append_assoc, List.drop_left]
  rcases Nat.le_total u.length a.length with hle | hle
  · have hd : a.length - u.length < t.length := by omega
    have hsplit : s.drop a.length = t.drop (a.length - u.length) ++ v := by
      have e1 : s.drop a.length = (s.drop u.length).drop (a.length - u.length) := by
        rw [List.drop_drop]
        congr 1
        omega
      rw [e1, htu, List.drop_append_eq_append_drop]
      have e2 : a.length - u.length - t.length = 0 := by omega
      rw [e2, List.drop_zero]
    have hagree : agree (t.drop (a.length - u.length)) pat = true :=
      agree_of_append_eq _ _ _ _ (by rw [← hsplit, hpa])
    have := conflictFree_fst hcf hd
    simp_all
  · have hd : u.length - a.length < pat.length := by omega
    have hsplit : s.drop u.length = pat.drop (u.length - a.length) ++ b := by
      have e1 : s.drop u.length = (s.drop a.length).drop (u.length - a.length) := by
        rw [List.drop_drop]
        congr 1
        omega
      rw [e1, hpa, List.drop_append_eq_append_drop]
      have e2 : u.length - a.length - pat.length = 0 := by omega
      rw [e2, List.drop_zero]
    have hagree : agree (pat.drop (u.length - a.length)) t = true :=
      agree_of_append_eq _ _ _ _ (by rw [← hsplit, htu])
    have := conflictFree_snd hcf hd
    simp_all

/-- Replacing one pattern never destroys occurrences of a conflict-free other
pattern: the marker substring survives the replacement. -/
theorem containsSub_replaceFirst_preserve (t pat repl s : List Char)
    (hcf : conflictFree t pat = true) (hpat : pat ≠ [])
    (hts : containsSub t s = true) :
    containsSub t (replaceFirst pat repl s) = true := by
  by_cases hps : containsSub pat s = true
  · obtain ⟨a, b, hsab, hout⟩ := replaceFirst_spec pat repl hpat s hps
    obtain ⟨u, v, hsuv⟩ := (containsSub_iff t s).mp hts
    rcases occurrences_disjoint t pat a b u v s hcf hsab hsuv with hcase | hcase
    · -- the occurrence of t lies entirely inside a
      have hu : u.length ≤ a.length := by omega
      have ht' : t.length ≤ a.length - u.length := by omega
      have h1 : a = s.take a.length := by
        rw [hsab, List.append_assoc, List.take_left]
      have h2 : s.take a.length = u ++ (t ++ v.take (a.length - u.length - t.length)) := by
        rw [hsuv, List.append_assoc, List.take_append_eq_append_take,
          List.take_of_length_le hu, List.take_append_eq_append_take,
          List.take_of_length_le ht']
      have ha : a = (u ++ t) ++ v.take (a.length - u.length - t.length) :=
        (h1.trans h2).trans (List.append_assoc u t _).symm
      have hta : containsSub t a = true :=
        (containsSub_iff t a).mpr ⟨u, v.take (a.length - u.length - t.length), ha⟩
      rw [hout, List.append_assoc]
      exact containsSub_append_left t a (repl ++ b) hta
    · -- the occurrence of t lies entirely inside b
      have h1 : b = s.drop (a.length + pat.length) := by
        rw [hsab, ← List.length_append, List.drop_left]
      have h2 : s.drop u.length = t ++ v := by
        rw [hsuv, List.append_assoc, List.drop_left]
      have hb : b.drop (u.length - (a.length + pat.length)) = t ++ v := by
        rw [h1, List.drop_drop, Nat.add_sub_cancel' hcase]
        exact h2
      have htb : containsSub t b = true := by
        apply (containsSub_iff t b).mpr
        refine ⟨b.take (u.length - (a.length + pat.length)), v, ?_⟩
        exact ((List.take_append_drop _ b).symm.trans
          (congrArg (b.take (u.length - (a.length + pat.length)) ++ ·) hb)).trans
          (List.append_assoc _ t v).symm
      rw [hout]
      exact containsSub_append_right t (a ++ repl) b htb
  · rw [replaceFirst_of_not_contains pat repl s (by simpa using hps)]
    exact hts

/-!
## HTML preprocessing (renderPDFFromHTML, lines 523-569)

The string constants and the charset / font-injection transformation applied
to the fetched HTML document before it is handed to the browser. Literal
braces and apostrophes inside the injected CSS are written with `\x7b`,
`\x7d` and `\x27` escapes; the character content is identical to the source.
-/

def chCharset : List Char := "charset".toList

def chHeadClose : List Char := "</head>".toList

def chHeadOpen : List Char := "<head>".toList

def chHtmlOpen : List Char := "<html>".toList

def metaCharsetTag : List Char := "<meta charset=\"UTF-8\">".toList

def fontsGoogle : List Char := "fonts.googleapis.com".toList

def fontFaceMark : List Char := "@font-face".toList

def idPlaceholder : List Char := "**Id**".toList

/-- The `fontInjection` template literal (lines 527-536). -/
def fontInjection : List Char :=
  ("\n          <link rel=\"preconnect\" href=\"https://fonts.googleapis.com\">\n          <link rel=\"preconnect\" href=\"https://fonts.gstatic.com\" crossorigin>\n          <link href=\"https://fonts.googleapis.com/css2?family=Noto+Sans+Devanagari:wght@400;500;600;700&family=Noto+Serif+Devanagari:wght@400;500;600;700&display=swap\" rel=\"stylesheet\">\n          <style>\n            * \x7b\n              font-family: \x27Noto Sans Devanagari\x27, \x27Noto Serif Devanagari\x27, \x27DejaVu Sans\x27, \x27Liberation Sans\x27, Arial, sans-serif !important;\n            \x7d\n          </style>\n        ").toList

/-- The charset-ensuring block (lines 539-545, repeated verbatim at 561-568):
if no `charset` substring is present, insert a meta tag before `</head>` or
after `<head>`; otherwise (or when no head tag exists) leave the input. -/
def ensureCharset (h : List Char) : List Char :=
  if containsSub chCharset h then h
  else if containsSub chHeadClose h then
    replaceFirst chHeadClose (metaCharsetTag ++ chHeadClose) h
  else if containsSub chHeadOpen h then
    replaceFirst chHeadOpen (chHeadOpen ++ metaCharsetTag) h
  else h

/-- The font-injection block (lines 548-559): inject `fontInjection` into the
head, or wrap the content in a synthesized html/head skeleton when no head
tag exists. -/
def injectFonts (h : List Char) : List Char :=
  if containsSub chHeadClose h then
    replaceFirst chHeadClose (fontInjection ++ chHeadClose) h
  else if containsSub chHeadOpen h then
    replaceFirst chHeadOpen (chHeadOpen ++ fontInjection) h
  else if !containsSub chHtmlOpen h then
    chHtmlOpen ++ chHeadOpen ++ metaCharsetTag ++ fontInjection ++
      ("</head><body>".toList) ++ h ++ ("</body></html>".toList)
  else
    replaceFirst chHtmlOpen
      (chHtmlOpen ++ chHeadOpen ++ metaCharsetTag ++ fontInjection ++ chHeadClose) h

/-- The whole preprocessing of the fetched HTML (lines 526-569): when no font
declaration is detected, ensure a charset and inject the fonts; otherwise only
ensure a charset. -/
def preprocessHtml (h : List Char) : List Char :=
  if !containsSub fontsGoogle h && !containsSub fontFaceMark h then
    injectFonts (ensureCharset h)
  else
    ensureCharset h

/-- Line 523 of `renderPDFFromHTML`: `response.data.replace('**Id**', credentialId)`. -/
def substituteCredentialIdPDF (credentialId html : List Char) : List Char :=
  replaceFirst idPlaceholder credentialId html

/-- Line 484 of `renderCredentials`: the identical substitution. -/
def substituteCredentialIdHTML (credentialId html : List Char) : List Char :=
  replaceFirst idPlaceholder credentialId html

/-! ### Lemmas about the preprocessing transformation -/

theorem metaCharsetTag_contains_charset : containsSub chCharset metaCharsetTag = true := by
  decide

theorem fontInjection_contains_fontsGoogle :
    containsSub fontsGoogle fontInjection = true := by
  decide

theorem ensureCharset_of_contains (h : List Char)
    (hc : containsSub chCharset h = true) : ensureCharset h = h := by
  simp [ensureCharset, hc]

/-- After the charset block, either the result contains `charset`, or nothing
was inserted because the input has no head tag (and no `charset`). -/
theorem ensureCharset_cases (h : List Char) :
    containsSub chCharset (ensureCharset h) = true ∨
      (ensureCharset h = h ∧ containsSub chCharset h = false ∧
       containsSub chHeadClose h = false ∧ containsSub chHeadOpen h = false) := by
  cases hc : containsSub chCharset h with
  | true =>
    left
    rw [ensureCharset_of_contains h hc]
    exact hc
  | false =>
    cases hhc : containsSub chHeadClose h with
    | true =>
      left
      simp only [ensureCharset, hc, hhc]
      simp only [Bool.false_eq_true, if_false, if_true]
      exact containsSub_replaceFirst_of_repl _ _ _ _ (by decide) hhc
        (containsSub_append_left _ metaCharsetTag chHeadClose metaCharsetTag_contains_charset)
    | false =>
      cases hho : containsSub chHeadOpen h with
      | true =>
        left
        simp only [ensureCharset, hc, hhc, hho]
        simp only [Bool.false_eq_true, if_false, if_true]
        exact containsSub_replaceFirst_of_repl _ _ _ _ (by decide) hho
          (containsSub_append_right _ chHeadOpen metaCharsetTag metaCharsetTag_contains_charset)
      | false =>
        right
        exact ⟨by simp [ensureCharset, hc, hhc, hho], rfl, rfl, rfl⟩

/-- The font-injection block always leaves the Google-fonts marker in its
output, whichever branch it takes. -/
theorem injectFonts_contains_fontsGoogle (h : List Char) :
    containsSub fontsGoogle (injectFonts h) = true := by
  cases hhc : containsSub chHeadClose h with
  | true =>
    simp only [injectFonts, hhc, if_true]
    exact containsSub_replaceFirst_of_repl _ _ _ _ (by decide) hhc
      (containsSub_append_left _ fontInjection chHeadClose fontInjection_contains_fontsGoogle)
  | false =>
    cases hho : containsSub chHeadOpen h with
    | true =>
      simp only [injectFonts, hhc, hho]
      simp only [Bool.false_eq_true, if_false, if_true]
      exact containsSub_replaceFirst_of_repl _ _ _ _ (by decide) hho
        (containsSub_append_right _ chHeadOpen fontInjection fontInjection_contains_fontsGoogle)
    | false =>
      cases hht : containsSub chHtmlOpen h with
      | false =>
        simp only [injectFonts, hhc, hho, hht]
        simp only [Bool.false_eq_true, if_false, Bool.not_false, if_true]
        apply containsSub_append_left
        apply containsSub_append_left
        apply containsSub_append_left
        apply containsSub_append_right
        exact fontInjection_contains_fontsGoogle
      | true =>
        simp only [injectFonts, hhc, hho, hht]
        simp only [Bool.false_eq_true, if_false, Bool.not_true, if_true]
        exact containsSub_replaceFirst_of_repl _ _ _ _ (by decide) hht
          (containsSub_append_left _ _ chHeadClose
            (containsSub_append_right _ _ fontInjection fontInjection_contains_fontsGoogle))

/-- If the input to the font block already contains `charset`, or has no head
tag at all, then the font block's output contains `charset`. -/
theorem injectFonts_charset (h : List Char)
    (hyp : containsSub chCharset h = true ∨
      (containsSub chHeadClose h = false ∧ containsSub chHeadOpen h = false)) :
    containsSub chCharset (injectFonts h) = true := by
  cases hhc : containsSub chHeadClose h with
  | true =>
    rcases hyp with hch | ⟨hf, _⟩
    · simp only [injectFonts, hhc, if_true]
      exact containsSub_replaceFirst_preserve _ _ _ _ (by decide) (by decide) hch
    · rw [hf] at hhc
      cases hhc
  | false =>
    cases hho : containsSub chHeadOpen h with
    | true =>
      rcases hyp with hch | ⟨_, hf⟩
      · simp only [injectFonts, hhc, hho]
        simp only [Bool.false_eq_true, if_false, if_true]
        exact containsSub_replaceFirst_preserve _ _ _ _ (by decide) (by decide) hch
      · rw [hf] at hho
        cases hho
    | false =>
      cases hht : containsSub chHtmlOpen h with
      | false =>
        simp only [injectFonts, hhc, hho, hht]
        simp only [Bool.false_eq_true, if_false, Bool.not_false, if_true]
        apply containsSub_append_left
        apply containsSub_append_left
        apply containsSub_append_left
        apply containsSub_append_left
        apply containsSub_append_right
        exact metaCharsetTag_contains_charset
      | true =>
        simp only [injectFonts, hhc, hho, hht]
        simp only [Bool.false_eq_true, if_false, Bool.not_true, if_true]
        exact containsSub_replaceFirst_of_repl _ _ _ _ (by decide) hht
          (containsSub_append_left _ _ chHeadClose
            (containsSub_append_left _ _ fontInjection
              (containsSub_append_right _ _ metaCharsetTag metaCharsetTag_contains_charset)))

/-- The charset block never destroys a marker that cannot overlap a head tag. -/
theorem ensureCharset_keeps_marker (t h : List Char)
    (cf1 : conflictFree t chHeadClose = true) (cf2 : conflictFree t chHeadOpen = true)
    (ht : containsSub t h = true) :
    containsSub t (ensureCharset h) = true := by
  cases hc : containsSub chCharset h with
  | true =>
    rw [ensureCharset_of_contains h hc]
    exact ht
  | false =>
    cases hhc : containsSub chHeadClose h with
    | true =>
      simp only [ensureCharset, hc, hhc]
      simp only [Bool.false_eq_true, if_false, if_true]
      exact containsSub_replaceFirst_preserve _ _ _ _ cf1 (by decide) ht
    | false =>
      cases hho : containsSub chHeadOpen h with
      | true =>
        simp only [ensureCharset, hc, hhc, hho]
        simp only [Bool.false_eq_true, if_false, if_true]
        exact containsSub_replaceFirst_preserve _ _ _ _ cf2 (by decide) ht
      | false =>
        simpa [ensureCharset, hc, hhc, hho] using ht

/-- Applying the charset block twice is the same as applying it once. -/
theorem ensureCharset_idem (h : List Char) :
    ensureCharset (ensureCharset h) = ensureCharset h := by
  rcases ensureCharset_cases h with hc | ⟨he, hc, hcl, hop⟩
  · exact ensureCharset_of_contains _ hc
  · rw [he]
    simp [ensureCharset, hc, hcl, hop]

/-- When the input has no font declaration, preprocessing takes the
injection branch. -/
theorem preprocessHtml_eq_inject (h : List Char)
    (hf : containsSub fontsGoogle h = false) (hff : containsSub fontFaceMark h = false) :
    preprocessHtml h = injectFonts (ensureCharset h) := by
  simp [preprocessHtml, hf, hff]

/-- When the input has a font declaration, preprocessing only runs the
charset block. -/
theorem preprocessHtml_eq_ensure (h : List Char)
    (hf : containsSub fontsGoogle h = true ∨ containsSub fontFaceMark h = true) :
    preprocessHtml h = ensureCharset h := by
  rcases hf with hf | hf <;> simp [preprocessHtml, hf]

/-- On inputs without a font declaration, the preprocessed output contains the
`charset` marker. -/
theorem preprocessHtml_contains_charset (h : List Char)
    (hf : containsSub fontsGoogle h = false) (hff : containsSub fontFaceMark h = false) :
    containsSub chCharset (preprocessHtml h) = true := by
  rw [preprocessHtml_eq_inject h hf hff]
  apply injectFonts_charset
  rcases ensureCharset_cases h with hc | ⟨he, _, hcl, hop⟩
  · exact Or.inl hc
  · rw [he]
    exact Or.inr ⟨hcl, hop⟩

/-- The preprocessed output always keeps (or gains) a font declaration. -/
theorem preprocessHtml_fontsCond (h : List Char) :
    containsSub fontsGoogle (preprocessHtml h) = true ∨
      containsSub fontFaceMark (preprocessHtml h) = true := by
  cases hf : containsSub fontsGoogle h with
  | true =>
    left
    rw [preprocessHtml_eq_ensure h (Or.inl hf)]
    exact ensureCharset_keeps_marker _ _ (by decide) (by decide) hf
  | false =>
    cases hff : containsSub fontFaceMark h with
    | true =>
      right
      rw [preprocessHtml_eq_ensure h (Or.inr hff)]
      exact ensureCharset_keeps_marker _ _ (by decide) (by decide) hff
    | false =>
      left
      rw [preprocessHtml_eq_inject h hf hff]
      exact injectFonts_contains_fontsGoogle _

/-- The preprocessing transformation is idempotent. -/
theorem preprocessHtml_idem (h : List Char) :
    preprocessHtml (preprocessHtml h) = preprocessHtml h := by
  have hsecond := preprocessHtml_eq_ensure (preprocessHtml h) (preprocessHtml_fontsCond h)
  rw [hsecond]
  cases hf : containsSub fontsGoogle h with
  | true =>
    rw [preprocessHtml_eq_ensure h (Or.inl hf)]
    exact ensureCharset_idem h
  | false =>
    cases hff : containsSub fontFaceMark h with
    | true =>
      rw [preprocessHtml_eq_ensure h (Or.inr hff)]
      exact ensureCharset_idem h
    | false =>
      rw [preprocessHtml_eq_inject h hf hff]
      apply ensureCharset_of_contains
      rw [← preprocessHtml_eq_inject h hf hff]
      exact preprocessHtml_contains_charset h hf hff

/-- Replacing when the pattern sits at the very front. -/
theorem replaceFirst_head (pat repl s : List Char) (hpat : pat ≠ []) :
    replaceFirst pat repl (pat ++ s) = repl ++ s := by
  cases pat with
  | nil => exact absurd rfl hpat
  | cons pc pr =>
    have hpre : (pc :: pr).isPrefixOf (pc :: (pr ++ s)) = true := by
      apply (isPrefixOf_iff_append _ _).mpr
      exact ⟨s, by simp⟩
    simp only [List.cons_append, replaceFirst, List.append_eq, hpre, if_true]
    rw [← List.cons_append, List.drop_left]

/-- `replace` with a string pattern rewrites exactly the leftmost occurrence:
if no occurrence of `pat` starts before position `p.length`, the occurrence
there is the one replaced, and the suffix `s` is kept verbatim. -/
theorem replaceFirst_leftmost (pat repl : List Char) (hpat : pat ≠ []) :
    ∀ (p s : List Char),
      (∀ i, i < p.length → pat.isPrefixOf ((p ++ pat ++ s).drop i) = false) →
      replaceFirst pat repl (p ++ pat ++ s) = p ++ repl ++ s := by
  intro p
  induction p with
  | nil =>
    intro s _
    simpa using replaceFirst_head pat repl s hpat
  | cons c p' ih =>
    intro s hfirst
    have h0 : pat.isPrefixOf (c :: (p' ++ pat ++ s)) = false := by
      have := hfirst 0 (by simp)
      simpa using this
    have hrest : ∀ i, i < p'.length →
        pat.isPrefixOf ((p' ++ pat ++ s).drop i) = false := by
      intro i hi
      have := hfirst (i + 1) (by simpa using Nat.succ_lt_succ hi)
      simpa using this
    show replaceFirst pat repl (c :: ((p' ++ pat) ++ s)) = c :: ((p' ++ repl) ++ s)
    simp only [replaceFirst, h0]
    simp only [Bool.false_eq_true, if_false]
    exact congrArg (c :: ·) (ih s hrest)

/-!
## The browser pool (lines 14-127)

State of the service: the three fields `browserInstance`,
`browserLaunchPromise` and `browserIdleTimeout` (identified by numeric ids),
together with the set of currently scheduled (live) timers and a counter for
fresh timer ids. JavaScript's event loop runs every synchronous code segment
atomically; each pool operation below is one such segment.
-/

structure SysState where
  browserInstance : Option Nat
  browserLaunchPromise : Option Nat
  browserIdleTimeout : Option Nat
  liveTimers : List Nat
  nextTimerId : Nat
deriving DecidableEq, Repr

def initState : SysState := ⟨none, none, none, [], 0⟩

/-- `if (this.browserIdleTimeout) clearTimeout(this.browserIdleTimeout)`:
the scheduled timer is descheduled, but the handle field is not nulled. -/
def clearIdleTimer (s : SysState) : SysState :=
  match s.browserIdleTimeout with
  | none => s
  | some h => { s with liveTimers := s.liveTimers.erase h }

/-- `resetBrowserIdleTimeout` (lines 92-109): cancel any pending idle timer,
then schedule a fresh one and store its handle. -/
def resetBrowserIdleTimeout (s : SysState) : SysState :=
  let s1 := clearIdleTimer s
  { s1 with browserIdleTimeout := some s1.nextTimerId,
            liveTimers := s1.nextTimerId :: s1.liveTimers,
            nextTimerId := s1.nextTimerId + 1 }

/-- What one caller of `getBrowserInstance` decides in its synchronous prefix
(lines 34-45, everything before the first `await`). -/
inductive AcquireDecision where
  | fastPath (inst : Nat)
  | joinLaunch (ticket : Nat)
  | startLaunch (ticket : Nat)
deriving DecidableEq, Repr

/-- The synchronous prefix of `getBrowserInstance` (lines 34-45), run
atomically by the event loop: returns the caller's decision, the state after
the prefix, and how many launch attempts were started (0 or 1).
`connected` models `browser.isConnected()`; `ticket` is the identity of the
promise a fresh `launchBrowser()` call would create. -/
def getBrowserInstanceSync (connected : Nat → Bool) (ticket : Nat) (s : SysState) :
    AcquireDecision × SysState × Nat :=
  match s.browserInstance with
  | some i =>
    if connected i then (.fastPath i, resetBrowserIdleTimeout s, 0)
    else
      match s.browserLaunchPromise with
      | some t => (.joinLaunch t, s, 0)
      | none => (.startLaunch ticket, { s with browserLaunchPromise := some ticket }, 1)
  | none =>
    match s.browserLaunchPromise with
    | some t => (.joinLaunch t, s, 0)
    | none => (.startLaunch ticket, { s with browserLaunchPromise := some ticket }, 1)

/-- The launching caller resuming at lines 48-53 after the launch promise
fulfilled with browser `inst`: store the instance, arm the idle timer, and
(in `finally`) clear the launch promise. -/
def launchResolveSuccess (inst : Nat) (s : SysState) : SysState :=
  let s1 := { s with browserInstance := some inst }
  let s2 := resetBrowserIdleTimeout s1
  { s2 with browserLaunchPromise := none }

/-- The launching caller resuming after the launch promise rejected: only the
`finally` block runs, clearing the launch promise. -/
def launchResolveFailure (s : SysState) : SysState :=
  { s with browserLaunchPromise := none }

/-- Observable side effects of the pool's teardown paths. -/
inductive PoolEff where
  | browserCloseAttempt (i : Nat)
  | logInfo
  | logError
deriving DecidableEq, Repr

/-- The idle-timer callback (lines 97-108) firing for timer `h`: the timer is
no longer scheduled, and if an instance exists it is closed (close failures
logged) and the handle nulled in `finally`. -/
def idleTimerFire (h : Nat) (closeFails : Bool) (s : SysState) : SysState × List PoolEff :=
  let s1 := { s with liveTimers := s.liveTimers.erase h }
  match s1.browserInstance with
  | some i =>
    ({ s1 with browserInstance := none },
     [.browserCloseAttempt i, if closeFails then .logError else .logInfo])
  | none => (s1, [])

/-- `onModuleDestroy` (lines 114-127): clear the idle timer if set, and close
the instance if set, catching and logging any close failure. The method never
throws (result is always `Except.ok`), but note that it clears neither the
`browserInstance` nor the `browserIdleTimeout` field. -/
def onModuleDestroy (closeFails : Bool) (s : SysState) :
    Except Nat Unit × SysState × List PoolEff :=
  let s1 := clearIdleTimer s
  match s1.browserInstance with
  | some i =>
    (.ok (), s1, [.browserCloseAttempt i, if closeFails then .logError else .logInfo])
  | none => (.ok (), s1, [])

/-- All states the pool can reach through its operations. -/
inductive Reachable : SysState → Prop where
  | init : Reachable initState
  | acquire (conn : Nat → Bool) (t : Nat) (s : SysState) :
      Reachable s → Reachable (getBrowserInstanceSync conn t s).2.1
  | launchOk (i : Nat) (s : SysState) :
      Reachable s → Reachable (launchResolveSuccess i s)
  | launchFail (s : SysState) :
      Reachable s → Reachable (launchResolveFailure s)
  | fire (h : Nat) (cf : Bool) (s : SysState) :
      Reachable s → h ∈ s.liveTimers → Reachable (idleTimerFire h cf s).1
  | destroy (cf : Bool) (s : SysState) :
      Reachable s → Reachable (onModuleDestroy cf s).2.1

/-- The timer invariant: the list of live timers is empty or the single timer
named by the stored handle. -/
def timersOk (s : SysState) : Prop :=
  s.liveTimers = [] ∨ ∃ h, s.liveTimers = [h] ∧ s.browserIdleTimeout = some h

theorem timersOk_clearIdleTimer (s : SysState) (hs : timersOk s) :
    (clearIdleTimer s).liveTimers = [] ∨
      ((clearIdleTimer s) = s ∧ s.liveTimers = []) := by
  rcases hs with h0 | ⟨h, hl, hh⟩
  · cases ht : s.browserIdleTimeout with
    | none => right; exact ⟨by simp [clearIdleTimer, ht], h0⟩
    | some x => left; simp [clearIdleTimer, ht, h0]
  · left
    simp [clearIdleTimer, hh, hl, List.erase_cons]

theorem timersOk_reset (s : SysState) (hs : timersOk s) :
    timersOk (resetBrowserIdleTimeout s) := by
  rcases timersOk_clearIdleTimer s hs with h0 | ⟨he, h0⟩
  · right
    exact ⟨(clearIdleTimer s).nextTimerId, by simp [resetBrowserIdleTimeout, h0], rfl⟩
  · right
    refine ⟨(clearIdleTimer s).nextTimerId, ?_, rfl⟩
    simp only [resetBrowserIdleTimeout]
    rw [he, h0]

/-- The three possible post-states of the synchronous acquire prefix. -/
theorem getBrowserInstanceSync_state (conn : Nat → Bool) (t : Nat) (s : SysState) :
    (getBrowserInstanceSync conn t s).2.1 = resetBrowserIdleTimeout s ∨
    (getBrowserInstanceSync conn t s).2.1 = s ∨
    (getBrowserInstanceSync conn t s).2.1 = { s with browserLaunchPromise := some t } := by
  unfold getBrowserInstanceSync
  cases s.browserInstance with
  | some i =>
    by_cases hc : conn i = true
    · simp [hc]
    · cases s.browserLaunchPromise with
      | some t' => simp [hc]
      | none => simp [hc]
  | none =>
    cases s.browserLaunchPromise with
    | some t' => simp
    | none => simp

theorem timersOk_setPromise (s : SysState) (p : Option Nat) (hs : timersOk s) :
    timersOk { s with browserLaunchPromise := p } := by
  rcases hs with h0 | ⟨h, hl, hh⟩
  · exact Or.inl h0
  · exact Or.inr ⟨h, hl, hh⟩

theorem timersOk_invariant (s : SysState) (hr : Reachable s) : timersOk s := by
  induction hr with
  | init => exact Or.inl rfl
  | acquire conn t s hs ih =>
    rcases getBrowserInstanceSync_state conn t s with he | he | he
    · rw [he]
      exact timersOk_reset s ih
    · rw [he]
      exact ih
    · rw [he]
      exact timersOk_setPromise s (some t) ih
  | launchOk i s hs ih =>
    have : timersOk (resetBrowserIdleTimeout { s with browserInstance := some i }) := by
      apply timersOk_reset
      rcases ih with h0 | ⟨h, hl, hh⟩
      · exact Or.inl h0
      · exact Or.inr ⟨h, hl, hh⟩
    rcases this with h0 | ⟨h, hl, hh⟩
    · exact Or.inl h0
    · exact Or.inr ⟨h, hl, hh⟩
  | launchFail s hs ih =>
    rcases ih with h0 | ⟨h, hl, hh⟩
    · exact Or.inl h0
    · exact Or.inr ⟨h, hl, hh⟩
  | fire h cf s hs hmem ih =>
    have hl1 : (s.liveTimers.erase h) = [] := by
      rcases ih with h0 | ⟨h', hl, _⟩
      · rw [h0] at hmem
        cases hmem
      · rw [hl] at hmem ⊢
        have : h = h' := by simpa using hmem
        simp [this, List.erase_cons]
    simp only [idleTimerFire]
    cases hbi : ({ s with liveTimers := s.liveTimers.erase h } : SysState).browserInstance with
    | some i => exact Or.inl (by simpa using hl1)
    | none => exact Or.inl (by simpa using hl1)
  | destroy cf s hs ih =>
    have h1 := timersOk_clearIdleTimer s ih
    have hl1 : (clearIdleTimer s).liveTimers = [] := by
      rcases h1 with h0 | ⟨he, h0⟩
      · exact h0
      · rw [he, h0]
    simp only [onModuleDestroy]
    cases hbi : (clearIdleTimer s).browserInstance with
    | some i => exact Or.inl (by simpa using hl1)
    | none => exact Or.inl (by simpa using hl1)

/-!
### N concurrent acquires

The event loop serializes the synchronous prefixes of the concurrent
`getBrowserInstance` callers; all of them run before the launch promise
settles (the callers are "issued while the pool is Empty"). `runCallers`
folds the prefixes, collecting each caller's decision and the total number of
launch attempts.
-/

def runCallers (conn : Nat → Bool) (t : Nat) :
    Nat → SysState → List AcquireDecision × SysState × Nat
  | 0, s => ([], s, 0)
  | n + 1, s =>
    let r1 := getBrowserInstanceSync conn t s
    let rs := runCallers conn t n r1.2.1
    (r1.1 :: rs.1, rs.2.1, r1.2.2 + rs.2.2)

/-- The value a caller eventually receives, given the outcome of each launch
promise: the fast path resolves with the cached instance, and both the
launch starter and the joiners await the promise they hold. -/
def callerResult (outcome : Nat → Except Nat Nat) : AcquireDecision → Except Nat Nat
  | .fastPath i => .ok i
  | .joinLaunch t => outcome t
  | .startLaunch t => outcome t

theorem runCallers_join (conn : Nat → Bool) (t t' : Nat) :
    ∀ (n : Nat) (s : SysState), s.browserInstance = none →
      s.browserLaunchPromise = some t' →
      runCallers conn t n s = (List.replicate n (.joinLaunch t'), s, 0) := by
  intro n
  induction n with
  | zero => intro s _ _; rfl
  | succ m ih =>
    intro s hbi hbp
    have hstep : getBrowserInstanceSync conn t s = (.joinLaunch t', s, 0) := by
      unfold getBrowserInstanceSync
      rw [hbi, hbp]
    simp only [runCallers, hstep, ih s hbi hbp, List.replicate]

theorem runCallers_singleFlight (conn : Nat → Bool) (t n : Nat) (s : SysState)
    (outcome : Nat → Except Nat Nat)
    (hbi : s.browserInstance = none) (hbp : s.browserLaunchPromise = none) (hn : 0 < n) :
    (runCallers conn t n s).2.2 = 1 ∧
    ∀ d ∈ (runCallers conn t n s).1, callerResult outcome d = outcome t := by
  obtain ⟨m, rfl⟩ : ∃ m, n = m + 1 := ⟨n - 1, by omega⟩
  have hstep : getBrowserInstanceSync conn t s =
      (.startLaunch t, { s with browserLaunchPromise := some t }, 1) := by
    unfold getBrowserInstanceSync
    rw [hbi, hbp]
  have hjoin := runCallers_join conn t t m { s with browserLaunchPromise := some t }
    (by simpa using hbi) rfl
  simp only [runCallers, hstep, hjoin]
  refine ⟨by trivial, ?_⟩
  intro d hd
  simp only [List.mem_cons, List.mem_replicate] at hd
  rcases hd with rfl | ⟨_, rfl⟩
  · rfl
  · rfl

/-!
## The render session (renderPDFFromHTML, lines 503-631)

Per-call model. The outcomes of the external suspension points (HTTP fetch,
pool acquisition, page creation, viewport, content load, font wait, PDF
generation, page closes) are drawn from an environment; the function below is
the control flow of the method's try/catch, recording the call's result and
the ordered trace of observable effects.
-/

/-- Errors observable from a render call: errors raised by collaborators
(identified by a code), and the `Error('PDF generation timeout')` created by
the export race (line 606). -/
inductive RErr where
  | external (code : Nat)
  | pdfTimeout
deriving DecidableEq, Repr

structure RenderEnv where
  fetchHtml : Except RErr (List Char)
  acquire : Except RErr Nat
  newPage : Except RErr Nat
  viewport : Except RErr Unit
  setContent : Except RErr Unit
  fontsWait : Except RErr Unit
  pdfGen : Except RErr (List Nat)
  pdfTime : Nat
  closeMain : Except RErr Unit
  closeCatch : Except RErr Unit

inductive REff where
  | fetched
  | pageCreated (p : Nat)
  | viewportSet
  | contentSet
  | fontsWaited
  | pdfExport
  | pageCloseAttempt (p : Nat)
  | browserCloseAttempt (b : Nat)
  | logErrorR
deriving DecidableEq, Repr

/-- `Promise.race` of `page.pdf()` against the 30s rejection timer
(lines 593-608): the PDF result wins iff it settles strictly before 30000ms. -/
def raceExport (env : RenderEnv) : Except RErr (List Nat) :=
  if env.pdfTime < 30000 then env.pdfGen else .error .pdfTimeout

/-- The catch block's cleanup when `page` is non-null (lines 620-626):
one more close attempt whose own failure is only logged. -/
def catchClose (p : Nat) (env : RenderEnv) : List REff :=
  .pageCloseAttempt p ::
    (match env.closeCatch with
     | .ok _ => []
     | .error _ => [.logErrorR])

/-- A failure `e` thrown inside the try block while `page` is set: the catch
logs, closes the page, and rethrows the original `e` (lines 616-630). -/
def failWithPage (p : Nat) (env : RenderEnv) (pre : List REff) (e : RErr) :
    Except RErr (List Nat) × List REff :=
  (.error e, pre ++ [.logErrorR] ++ catchClose p env)

/-- The control flow of `renderPDFFromHTML` (lines 503-631). -/
def renderPDFFromHTML (credentialId : List Char) (env : RenderEnv) :
    Except RErr (List Nat) × List REff :=
  match env.fetchHtml with
  | .error e => (.error e, [.logErrorR])
  | .ok html =>
    let _htmlContent := preprocessHtml (substituteCredentialIdPDF credentialId html)
    match env.acquire with
    | .error e => (.error e, [.fetched, .logErrorR])
    | .ok _b =>
      match env.newPage with
      | .error e => (.error e, [.fetched, .logErrorR])
      | .ok p =>
        match env.viewport with
        | .error e => failWithPage p env [.fetched, .pageCreated p] e
        | .ok _ =>
          match env.setContent with
          | .error e => failWithPage p env [.fetched, .pageCreated p, .viewportSet] e
          | .ok _ =>
            match env.fontsWait with
            | .error e =>
              failWithPage p env [.fetched, .pageCreated p, .viewportSet, .contentSet] e
            | .ok _ =>
              match raceExport env with
              | .error e =>
                failWithPage p env
                  [.fetched, .pageCreated p, .viewportSet, .contentSet,
                   .fontsWaited, .pdfExport] e
              | .ok pdf =>
                match env.closeMain with
                | .ok _ =>
                  (.ok pdf,
                   [.fetched, .pageCreated p, .viewportSet, .contentSet,
                    .fontsWaited, .pdfExport, .pageCloseAttempt p])
                | .error ce =>
                  failWithPage p env
                    [.fetched, .pageCreated p, .viewportSet, .contentSet,
                     .fontsWaited, .pdfExport, .pageCloseAttempt p] ce

/-- The render path never attempts to close the shared browser instance. -/
theorem renderPDFFromHTML_no_browser_close (credentialId : List Char) (env : RenderEnv)
    (b : Nat) : REff.browserCloseAttempt b ∉ (renderPDFFromHTML credentialId env).2 := by
  unfold renderPDFFromHTML
  rcases env.fetchHtml with e | html <;>
    rcases env.acquire with e2 | b2 <;>
    rcases env.newPage with e3 | p <;>
    rcases env.viewport with e4 | u4 <;>
    rcases env.setContent with e5 | u5 <;>
    rcases env.fontsWait with e6 | u6 <;>
    rcases hr : raceExport env with e7 | pdf <;>
    rcases env.closeMain with e8 | u8 <;>
    simp [failWithPage, catchClose] <;>
    rcases env.closeCatch with e9 | u9 <;>
    simp

/-! ## Fixtures and small facts used when settling the claims -/

theorem clearIdleTimer_browserInstance (s : SysState) :
    (clearIdleTimer s).browserInstance = s.browserInstance := by
  cases h : s.browserIdleTimeout <;> simp [clearIdleTimer, h]

theorem clearIdleTimer_liveTimers_nil (s : SysState) (hr : Reachable s) :
    (clearIdleTimer s).liveTimers = [] := by
  rcases timersOk_clearIdleTimer s (timersOk_invariant s hr) with h0 | ⟨he, h0⟩
  · exact h0
  · rw [he, h0]

theorem onModuleDestroy_state (cf : Bool) (s : SysState) :
    (onModuleDestroy cf s).2.1 = clearIdleTimer s := by
  unfold onModuleDestroy
  cases h : (clearIdleTimer s).browserInstance <;> simp [h]

theorem onModuleDestroy_ok (cf : Bool) (s : SysState) :
    (onModuleDestroy cf s).1 = .ok () := by
  unfold onModuleDestroy
  cases h : (clearIdleTimer s).browserInstance <;> simp [h]

theorem onModuleDestroy_effects_some (cf : Bool) (s : SysState) (i : Nat)
    (h : s.browserInstance = some i) :
    (onModuleDestroy cf s).2.2 =
      [.browserCloseAttempt i, if cf then .logError else .logInfo] := by
  unfold onModuleDestroy
  have h' : (clearIdleTimer s).browserInstance = some i :=
    (clearIdleTimer_browserInstance s).trans h
  simp [h']

/-- The state after one caller acquires from the empty pool and the launch
succeeds with browser instance `5`. -/
def sWithBrowser : SysState :=
  launchResolveSuccess 5 (getBrowserInstanceSync (fun _ => true) 0 initState).2.1

theorem reachable_sWithBrowser : Reachable sWithBrowser :=
  Reachable.launchOk 5 _ (Reachable.acquire (fun _ => true) 0 initState Reachable.init)

/-- A render environment in which every suspension point succeeds. -/
def envAllOk : RenderEnv :=
  { fetchHtml := .ok [], acquire := .ok 1, newPage := .ok 2, viewport := .ok (),
    setContent := .ok (), fontsWait := .ok (), pdfGen := .ok [37], pdfTime := 5,
    closeMain := .ok (), closeCatch := .ok () }

/-- All success conditions up to (excluding) the PDF export. -/
def reachesExport (env : RenderEnv) (p : Nat) : Prop :=
  (∃ h, env.fetchHtml = .ok h) ∧ (∃ b, env.acquire = .ok b) ∧ env.newPage = .ok p ∧
    env.viewport = .ok () ∧ env.setContent = .ok () ∧ env.fontsWait = .ok ()

/-! ## The claims -/

/-- C1: for every number `n` of concurrent `getBrowserInstance` callers whose
synchronous prefixes run while the pool is Empty (no browser instance, no
in-flight launch), exactly one launch attempt is made, and every caller's
eventual result is the outcome of the one shared launch ticket `t` — the same
instance on success, the same failure on rejection. -/
theorem C1_acquire_single_flight (conn : Nat → Bool) (t n : Nat) (s : SysState)
    (outcome : Nat → Except Nat Nat)
    (hbi : s.browserInstance = none) (hbp : s.browserLaunchPromise = none)
    (hn : 0 < n) :
    (runCallers conn t n s).2.2 = 1 ∧
    ∀ d ∈ (runCallers conn t n s).1, callerResult outcome d = outcome t :=
  runCallers_singleFlight conn t n s outcome hbi hbp hn

theorem C1_witness :
    initState.browserInstance = none ∧ initState.browserLaunchPromise = none ∧
    0 < 3 ∧
    ((runCallers (fun _ => true) 7 3 initState).2.2 = 1 ∧
     ∀ d ∈ (runCallers (fun _ => true) 7 3 initState).1,
       callerResult (fun _ => Except.ok 5) d = (fun _ => Except.ok 5) 7) :=
  ⟨rfl, rfl, by decide,
   C1_acquire_single_flight (fun _ => true) 7 3 initState (fun _ => Except.ok 5)
     rfl rfl (by decide)⟩

/-- C2 counterexample: at the reachable state `sWithBrowser` (instance `5`
present), `onModuleDestroy` does not clear the instance handle (the pool is
not Empty afterwards), and a second call attempts to close instance `5`
again — refuting the claimed idempotence / no-double-close / transition to
Empty. -/
theorem C2_counterexample :
    (onModuleDestroy false sWithBrowser).2.1.browserInstance ≠ none ∧
    PoolEff.browserCloseAttempt 5 ∈ (onModuleDestroy false sWithBrowser).2.2 ∧
    PoolEff.browserCloseAttempt 5 ∈
      (onModuleDestroy false (onModuleDestroy false sWithBrowser).2.1).2.2 := by
  decide

/-- C2 (amended): `onModuleDestroy` never throws (close failures are caught
and logged) and cancels the pending idle timer, but it leaves the
`browserInstance` handle untouched — the pool does not return to Empty, and a
second call attempts to close the same instance again. -/
theorem C2_shutdown_behavior (s : SysState) (cf cf2 : Bool) (hr : Reachable s) :
    (onModuleDestroy cf s).1 = .ok () ∧
    (onModuleDestroy cf s).2.1.liveTimers = [] ∧
    (onModuleDestroy cf s).2.1.browserInstance = s.browserInstance ∧
    ∀ i, s.browserInstance = some i →
      PoolEff.browserCloseAttempt i ∈ (onModuleDestroy cf s).2.2 ∧
      PoolEff.browserCloseAttempt i ∈
        (onModuleDestroy cf2 (onModuleDestroy cf s).2.1).2.2 := by
  refine ⟨onModuleDestroy_ok cf s, ?_, ?_, ?_⟩
  · rw [onModuleDestroy_state]
    exact clearIdleTimer_liveTimers_nil s hr
  · rw [onModuleDestroy_state]
    exact clearIdleTimer_browserInstance s
  · intro i hi
    constructor
    · rw [onModuleDestroy_effects_some cf s i hi]
      simp
    · have h2 : (onModuleDestroy cf s).2.1.browserInstance = some i := by
        rw [onModuleDestroy_state, clearIdleTimer_browserInstance, hi]
      rw [onModuleDestroy_effects_some cf2 _ i h2]
      simp

theorem C2_witness :
    (onModuleDestroy false sWithBrowser).1 = .ok () ∧
    (onModuleDestroy false sWithBrowser).2.1.liveTimers = [] ∧
    (onModuleDestroy false sWithBrowser).2.1.browserInstance =
      sWithBrowser.browserInstance ∧
    ∀ i, sWithBrowser.browserInstance = some i →
      PoolEff.browserCloseAttempt i ∈ (onModuleDestroy false sWithBrowser).2.2 ∧
      PoolEff.browserCloseAttempt i ∈
        (onModuleDestroy false (onModuleDestroy false sWithBrowser).2.1).2.2 :=
  C2_shutdown_behavior sWithBrowser false false reachable_sWithBrowser

/-- C8: when an instance exists and reports connected, the synchronous prefix
of `getBrowserInstance` takes the fast path: it returns that same instance
(without awaiting anything), starts no launch, leaves the launch-promise slot
untouched, and rearms the idle deadline with a fresh timer. -/
theorem C8_fast_path (s : SysState) (conn : Nat → Bool) (t i : Nat)
    (outcome : Nat → Except Nat Nat)
    (hbi : s.browserInstance = some i) (hc : conn i = true) :
    getBrowserInstanceSync conn t s = (.fastPath i, resetBrowserIdleTimeout s, 0) ∧
    callerResult outcome (.fastPath i) = .ok i ∧
    (resetBrowserIdleTimeout s).browserIdleTimeout = some (clearIdleTimer s).nextTimerId ∧
    (resetBrowserIdleTimeout s).browserLaunchPromise = s.browserLaunchPromise := by
  refine ⟨?_, rfl, rfl, ?_⟩
  · unfold getBrowserInstanceSync
    rw [hbi]
    simp [hc]
  · cases h : s.browserIdleTimeout <;>
      simp [resetBrowserIdleTimeout, clearIdleTimer, h]

theorem C8_witness :
    sWithBrowser.browserInstance = some 5 ∧
    (fun _ => true : Nat → Bool) 5 = true ∧
    (getBrowserInstanceSync (fun _ => true) 9 sWithBrowser =
        (.fastPath 5, resetBrowserIdleTimeout sWithBrowser, 0) ∧
     callerResult (fun _ => Except.ok 0) (.fastPath 5) = .ok 5 ∧
     (resetBrowserIdleTimeout sWithBrowser).browserIdleTimeout =
        some (clearIdleTimer sWithBrowser).nextTimerId ∧
     (resetBrowserIdleTimeout sWithBrowser).browserLaunchPromise =
        sWithBrowser.browserLaunchPromise) :=
  ⟨rfl, rfl,
   C8_fast_path sWithBrowser (fun _ => true) 9 5 (fun _ => Except.ok 0) rfl rfl⟩

/-- C9: in every state reachable through the pool's operations, at most one
idle-deadline timer is live: `resetBrowserIdleTimeout` cancels the existing
timer before arming a fresh one, and shutdown cancels it. -/
theorem C9_single_idle_timer (s : SysState) (hr : Reachable s) :
    s.liveTimers.length ≤ 1 := by
  rcases timersOk_invariant s hr with h0 | ⟨h, hl, _⟩
  · simp [h0]
  · simp [hl]

theorem C9_witness : sWithBrowser.liveTimers.length ≤ 1 :=
  C9_single_idle_timer sWithBrowser reachable_sWithBrowser

/-- C3 counterexample: in a run where every step succeeds — the PDF export
included (`raceExport` returns the bytes `[37]`) — but the subsequent
`page.close()` fails with error 7, the call does not return the export
result: the close failure becomes the call's result, refuting "the export
result is still returned and the close failure is only logged". -/
theorem C3_counterexample :
    raceExport { envAllOk with closeMain := .error (.external 7) } = .ok [37] ∧
    (renderPDFFromHTML [] { envAllOk with closeMain := .error (.external 7) }).1 =
      .error (.external 7) ∧
    (renderPDFFromHTML [] { envAllOk with closeMain := .error (.external 7) }).1 ≠
      .ok [37] := by
  refine ⟨rfl, rfl, ?_⟩
  exact fun hcontra => Except.noConfusion hcontra

/-- C3 (amended): when the export succeeds and the page close then fails, the
close error is thrown: the catch block logs, attempts a second close, and the
call fails with the close error instead of returning the PDF. A cleanup
failure in the catch path, however, never replaces an earlier render failure:
the original error is rethrown. -/
theorem C3_cleanup_failure_policy :
    (∀ (cred : List Char) (env : RenderEnv) (p : Nat) (pdf : List Nat) (ce : RErr),
       reachesExport env p → raceExport env = .ok pdf → env.closeMain = .error ce →
       (renderPDFFromHTML cred env).1 = .error ce ∧
       (renderPDFFromHTML cred env).2 =
         [.fetched, .pageCreated p, .viewportSet, .contentSet, .fontsWaited,
          .pdfExport, .pageCloseAttempt p] ++ [.logErrorR] ++ catchClose p env) ∧
    (∀ (cred : List Char) (env : RenderEnv) (p : Nat) (e : RErr),
       reachesExport env p → raceExport env = .error e →
       (renderPDFFromHTML cred env).1 = .error e) := by
  constructor
  · rintro cred env p pdf ce ⟨⟨h, hf⟩, ⟨b, ha⟩, hn, hv, hs, hw⟩ hr hc
    unfold renderPDFFromHTML
    simp only [hf, ha, hn, hv, hs, hw, hr, hc]
    exact ⟨rfl, rfl⟩
  · rintro cred env p e ⟨⟨h, hf⟩, ⟨b, ha⟩, hn, hv, hs, hw⟩ hr
    unfold renderPDFFromHTML
    simp only [hf, ha, hn, hv, hs, hw, hr]
    rfl

theorem C3_witness :
    (reachesExport { envAllOk with closeMain := .error (.external 7) } 2 ∧
     raceExport { envAllOk with closeMain := .error (.external 7) } = .ok [37] ∧
     ({ envAllOk with closeMain := .error (.external 7) } : RenderEnv).closeMain =
       .error (.external 7) ∧
     (renderPDFFromHTML [] { envAllOk with closeMain := .error (.external 7) }).1 =
       .error (.external 7) ∧
     (renderPDFFromHTML [] { envAllOk with closeMain := .error (.external 7) }).2 =
       [.fetched, .pageCreated 2, .viewportSet, .contentSet, .fontsWaited,
        .pdfExport, .pageCloseAttempt 2] ++ [.logErrorR] ++
         catchClose 2 { envAllOk with closeMain := .error (.external 7) }) ∧
    (reachesExport { envAllOk with pdfTime := 40000 } 2 ∧
     raceExport { envAllOk with pdfTime := 40000 } = .error .pdfTimeout ∧
     (renderPDFFromHTML [] { envAllOk with pdfTime := 40000 }).1 =
       .error .pdfTimeout) :=
  ⟨⟨⟨⟨[], rfl⟩, ⟨1, rfl⟩, rfl, rfl, rfl, rfl⟩, rfl, rfl,
    C3_cleanup_failure_policy.1 [] { envAllOk with closeMain := .error (.external 7) }
      2 [37] (.external 7) ⟨⟨[], rfl⟩, ⟨1, rfl⟩, rfl, rfl, rfl, rfl⟩ rfl rfl⟩,
   ⟨⟨⟨[], rfl⟩, ⟨1, rfl⟩, rfl, rfl, rfl, rfl⟩, rfl,
    C3_cleanup_failure_policy.2 [] { envAllOk with pdfTime := 40000 }
      2 .pdfTimeout ⟨⟨[], rfl⟩, ⟨1, rfl⟩, rfl, rfl, rfl, rfl⟩ rfl⟩⟩

/-- C4 counterexample: when the font-readiness wait fails with error 9 (all
earlier steps succeeding), the call fails with that error and never reaches
the PDF export — refuting "the call still proceeds to the PDF export step". -/
theorem C4_counterexample :
    (renderPDFFromHTML [] { envAllOk with fontsWait := .error (.external 9) }).1 =
      .error (.external 9) ∧
    REff.pdfExport ∉
      (renderPDFFromHTML [] { envAllOk with fontsWait := .error (.external 9) }).2 := by
  refine ⟨rfl, ?_⟩
  decide

/-- C4 (amended): the font-readiness wait (line 590) is not guarded: if it
fails, the error propagates through the catch block (which closes the page)
and the call fails without reaching the export step. -/
theorem C4_font_wait_failure_aborts (cred : List Char) (env : RenderEnv) (p : Nat)
    (e : RErr)
    (h1 : ∃ h, env.fetchHtml = .ok h) (h2 : ∃ b, env.acquire = .ok b)
    (h3 : env.newPage = .ok p) (h4 : env.viewport = .ok ())
    (h5 : env.setContent = .ok ()) (h6 : env.fontsWait = .error e) :
    (renderPDFFromHTML cred env).1 = .error e ∧
    REff.pdfExport ∉ (renderPDFFromHTML cred env).2 ∧
    REff.pageCloseAttempt p ∈ (renderPDFFromHTML cred env).2 := by
  obtain ⟨h, hf⟩ := h1
  obtain ⟨b, ha⟩ := h2
  unfold renderPDFFromHTML
  simp only [hf, ha, h3, h4, h5, h6]
  refine ⟨rfl, ?_, ?_⟩
  · simp only [failWithPage, catchClose]
    cases env.closeCatch <;> simp
  · simp [failWithPage, catchClose]

theorem C4_witness :
    (∃ h, ({ envAllOk with fontsWait := .error (.external 9) } : RenderEnv).fetchHtml =
        .ok h) ∧
    (renderPDFFromHTML [] { envAllOk with fontsWait := .error (.external 9) }).1 =
      .error (.external 9) ∧
    REff.pdfExport ∉
      (renderPDFFromHTML [] { envAllOk with fontsWait := .error (.external 9) }).2 ∧
    REff.pageCloseAttempt 2 ∈
      (renderPDFFromHTML [] { envAllOk with fontsWait := .error (.external 9) }).2 :=
  ⟨⟨[], rfl⟩,
   C4_font_wait_failure_aborts [] { envAllOk with fontsWait := .error (.external 9) }
     2 (.external 9) ⟨[], rfl⟩ ⟨1, rfl⟩ rfl rfl rfl rfl⟩

/-- C5: when the export deadline wins the race (the PDF does not settle
before 30000 ms), the call fails with the render-timeout error, a close of the
per-call page is attempted (the trace lists it before the call returns), and
the render path never attempts to close the shared browser instance on any
exit path. -/
theorem C5_export_deadline (cred : List Char) (env : RenderEnv) (p : Nat)
    (h1 : ∃ h, env.fetchHtml = .ok h) (h2 : ∃ b, env.acquire = .ok b)
    (h3 : env.newPage = .ok p) (h4 : env.viewport = .ok ())
    (h5 : env.setContent = .ok ()) (h6 : env.fontsWait = .ok ())
    (ht : 30000 ≤ env.pdfTime) :
    (renderPDFFromHTML cred env).1 = .error .pdfTimeout ∧
    REff.pageCloseAttempt p ∈ (renderPDFFromHTML cred env).2 ∧
    ∀ (cred' : List Char) (env' : RenderEnv) (b' : Nat),
      REff.browserCloseAttempt b' ∉ (renderPDFFromHTML cred' env').2 := by
  obtain ⟨h, hf⟩ := h1
  obtain ⟨b, ha⟩ := h2
  have hr : raceExport env = .error .pdfTimeout := by
    unfold raceExport
    rw [if_neg (by omega)]
  unfold renderPDFFromHTML
  simp only [hf, ha, h3, h4, h5, h6, hr]
  refine ⟨rfl, ?_, ?_⟩
  · simp [failWithPage, catchClose]
  · intro cred' env' b'
    exact renderPDFFromHTML_no_browser_close cred' env' b'

theorem C5_witness :
    30000 ≤ ({ envAllOk with pdfTime := 31000 } : RenderEnv).pdfTime ∧
    (renderPDFFromHTML [] { envAllOk with pdfTime := 31000 }).1 =
      .error .pdfTimeout ∧
    REff.pageCloseAttempt 2 ∈
      (renderPDFFromHTML [] { envAllOk with pdfTime := 31000 }).2 ∧
    ∀ (cred' : List Char) (env' : RenderEnv) (b' : Nat),
      REff.browserCloseAttempt b' ∉ (renderPDFFromHTML cred' env').2 :=
  ⟨by decide,
   C5_export_deadline [] { envAllOk with pdfTime := 31000 } 2
     ⟨[], rfl⟩ ⟨1, rfl⟩ rfl rfl rfl rfl (by decide)⟩

/-- C6 counterexample: for the input `<div>@font-face</div>` — which contains
a font declaration but no head tag and no charset — the preprocessor output
contains no `charset` substring at all: no charset declaration is inserted
and no head/html wrapper is synthesized, refuting "for every input HTML
string". -/
theorem C6_counterexample :
    containsSub chCharset (preprocessHtml ("<div>@font-face</div>".toList)) = false := by
  decide

/-- C6 (amended): for every input that lacks an existing font declaration
(neither `fonts.googleapis.com` nor `@font-face` occurs), the preprocessor
output contains a charset declaration — inserted into the head when a head
tag exists, or via the synthesized head/html wrapper otherwise. When a font
declaration is already present, a charset is only inserted if a head tag
exists. -/
theorem C6_charset_insertion (h : List Char)
    (hf : containsSub fontsGoogle h = false) (hff : containsSub fontFaceMark h = false) :
    containsSub chCharset (preprocessHtml h) = true :=
  preprocessHtml_contains_charset h hf hff

theorem C6_witness :
    containsSub fontsGoogle ("<p>hi</p>".toList) = false ∧
    containsSub fontFaceMark ("<p>hi</p>".toList) = false ∧
    containsSub chCharset (preprocessHtml ("<p>hi</p>".toList)) = true :=
  ⟨by decide, by decide, C6_charset_insertion ("<p>hi</p>".toList) (by decide) (by decide)⟩

/-- C7: the HTML preprocessing transformation is idempotent — applying it to
already-processed output changes nothing, because the injected markers
(`charset`, the font-injection block containing `fonts.googleapis.com`)
persist in the output and suppress re-injection. -/
theorem C7_preprocess_idempotent (h : List Char) :
    preprocessHtml (preprocessHtml h) = preprocessHtml h :=
  preprocessHtml_idem h

/-- C10: `replace` with the string pattern `**Id**` substitutes only the
leftmost occurrence: when the document splits as `p ++ **Id** ++ s` with no
occurrence starting inside `p` and at least one further occurrence inside
`s`, both `renderPDFFromHTML`'s and `renderCredentials`'s substitution yield
`p ++ credentialId ++ s` — the later occurrences are left unchanged and still
present in the output. -/
theorem C10_replace_first_only (cred p s : List Char)
    (hfirst : ∀ i, i < p.length →
      idPlaceholder.isPrefixOf ((p ++ idPlaceholder ++ s).drop i) = false)
    (hmore : containsSub idPlaceholder s = true) :
    substituteCredentialIdPDF cred (p ++ idPlaceholder ++ s) = p ++ cred ++ s ∧
    substituteCredentialIdHTML cred (p ++ idPlaceholder ++ s) = p ++ cred ++ s ∧
    containsSub idPlaceholder (p ++ cred ++ s) = true := by
  have he := replaceFirst_leftmost idPlaceholder cred (by decide) p s hfirst
  exact ⟨he, he, containsSub_append_right _ _ s hmore⟩

theorem C10_witness :
    (∀ i, i < ("ab".toList : List Char).length →
      idPlaceholder.isPrefixOf
        ((("ab".toList : List Char) ++ idPlaceholder ++ ("xx**Id**yy".toList)).drop i) =
        false) ∧
    containsSub idPlaceholder ("xx**Id**yy".toList) = true ∧
    (substituteCredentialIdPDF ("C1".toList)
        (("ab".toList : List Char) ++ idPlaceholder ++ ("xx**Id**yy".toList)) =
      ("ab".toList : List Char) ++ ("C1".toList) ++ ("xx**Id**yy".toList) ∧
     substituteCredentialIdHTML ("C1".toList)
        (("ab".toList : List Char) ++ idPlaceholder ++ ("xx**Id**yy".toList)) =
      ("ab".toList : List Char) ++ ("C1".toList) ++ ("xx**Id**yy".toList) ∧
     containsSub idPlaceholder
        (("ab".toList : List Char) ++ ("C1".toList) ++ ("xx**Id**yy".toList)) = true) :=
  ⟨by decide, by decide,
   C10_replace_first_only ("C1".toList) ("ab".toList) ("xx**Id**yy".toList)
     (by decide) (by decide)⟩

end CertSvc
